import Mathlib

/-!
# bmq: ConnectionID, AuthLevel, Access and the pubkey hash

A shallow embedding of `bmq/auth.h` and `bmq/connections.h`.

* A `std::string` is a list of bytes (`Str`); `==` on strings is equality of the byte lists and
  `<` is the lexicographic order on unsigned bytes with a proper prefix ordered first
  (`std_string_lt`).
* An `int64_t` is an `Int`; every value the code builds itself (`0`, `MN_ID = -1`) is in range, and
  the comparisons of the embedding never overflow.
* `std::hash<int64_t>`, `std::hash<std::string>`, `sizeof(size_t)` and the byte order belong to the
  C++ implementation, not to the repository: they are the fields of `StdImpl`, and every
  definition that needs one takes an `StdImpl` argument.
* The `BMQ` class (proxy, auth engine, timer wheel) has no sources here. Its admission check
  (`check_auth`, `proxy_incoming`) and its timers (`TimerState`, `timer_step`) are modelled from
  the specification, and each such definition says so.
-/

namespace bmq

/-! ## Strings -/

/-- One `char`, read as an unsigned byte. -/
abbrev Byte := Fin 256

/-- The bytes of a `std::string`. -/
abbrev Str := List Byte

/-- The comparison `a < b` of two `std::string`s: the first differing byte decides, and a proper
prefix is less than the longer string. -/
def std_string_lt : Str → Str → Bool
  | [], [] => false
  | [], _ :: _ => true
  | _ :: _, [] => false
  | a :: as, b :: bs =>
    if a < b then true
    else if b < a then false
    else std_string_lt as bs

/-! ## The C++ implementation -/

/-- What the code takes from the C++ implementation: the width of `size_t`, the byte order, and
the two standard hash functions, whose results are `size_t` values. -/
structure StdImpl where
  /-- The value of `sizeof(size_t)`. -/
  sizeof_size_t : Nat
  /-- Whether the least significant byte of an integer is stored first. -/
  little_endian : Bool
  /-- The function `std::hash<int64_t>`. -/
  hash_int64 : Int → Nat
  /-- The function `std::hash<std::string>`. -/
  hash_string : Str → Nat
  /-- The result of `std::hash<int64_t>` fits a `size_t`. -/
  hash_int64_lt : ∀ i, hash_int64 i < 2 ^ (8 * sizeof_size_t)
  /-- The result of `std::hash<std::string>` fits a `size_t`. -/
  hash_string_lt : ∀ s, hash_string s < 2 ^ (8 * sizeof_size_t)

/-- The number of values of a `size_t`: unsigned arithmetic is taken modulo this. -/
def size_t_mod (impl : StdImpl) : Nat := 2 ^ (8 * impl.sizeof_size_t)

/-- The unsigned integer whose little-endian representation is the given bytes. -/
def le_bytes_value : Str → Nat
  | [] => 0
  | b :: bs => b.val + 256 * le_bytes_value bs

/-- The integer that `std::memcpy` leaves in an unsigned object whose storage received the given
bytes, in the byte order of the implementation. -/
def memcpy_value (impl : StdImpl) (bytes : Str) : Nat :=
  if impl.little_endian then le_bytes_value bytes else le_bytes_value bytes.reverse

/-! ## auth.h -/

/-- The enumeration `enum class AuthLevel`. -/
inductive AuthLevel where
  | denied
  | none
  | basic
  | admin
deriving DecidableEq, Repr

/-- The underlying integer of an enumerator: none has an initialiser, so they count from zero in
declaration order. -/
def AuthLevel.underlying : AuthLevel → Int
  | AuthLevel.denied => 0
  | AuthLevel.none => 1
  | AuthLevel.basic => 2
  | AuthLevel.admin => 3

/-- The built-in `a < b` of a scoped enumeration compares the underlying integers. -/
def AuthLevel.operator_lt (a b : AuthLevel) : Bool := decide (a.underlying < b.underlying)

/-- The struct `Access`: the access level of a command category. -/
structure Access where
  auth : AuthLevel
  remote_mn : Bool
  local_mn : Bool
deriving DecidableEq, Repr

/-- The constructor `Access(AuthLevel auth, bool remote_mn, bool local_mn)` with all three
arguments given. -/
def Access.ctor (auth : AuthLevel) (remote_mn local_mn : Bool) : Access :=
  { auth := auth, remote_mn := remote_mn, local_mn := local_mn }

/-- The call `Access(auth, remote_mn)`: the default argument `local_mn = false` is filled in. -/
def Access.ctor_auth_remote (auth : AuthLevel) (remote_mn : Bool) : Access :=
  Access.ctor auth remote_mn false

/-- The call `Access(auth)`, which is also the implicit conversion from an `AuthLevel`: the
default arguments `remote_mn = false, local_mn = false` are filled in. -/
def Access.of_AuthLevel (auth : AuthLevel) : Access :=
  Access.ctor auth false false

/-- The call `Access()`: all three default arguments are filled in, `auth = AuthLevel::none`. -/
def Access.default_ctor : Access :=
  Access.ctor AuthLevel.none false false

/-- The functor `already_hashed`: the fallback `std::hash<std::string>` for a string shorter
than a `size_t`, otherwise the first `sizeof(size_t)` bytes copied into a `size_t`. -/
def already_hashed (impl : StdImpl) (s : Str) : Nat :=
  if s.length < impl.sizeof_size_t then impl.hash_string s
  else memcpy_value impl (s.take impl.sizeof_size_t)

/-! ## connections.h -/

/-- The exceptions the embedded code throws. -/
inductive Exception where
  | runtime_error (what : String)
deriving DecidableEq, Repr

/-- The struct `ConnectionID`: its three private data members. -/
structure ConnectionID where
  id : Int
  pk : Str
  route : Str
deriving DecidableEq, Repr

namespace ConnectionID

/-- The constant `MN_ID`. -/
def MN_ID : Int := -1

/-- The private constructor `ConnectionID(int64_t id)`: `pk` and `route` are default-initialised
to the empty string. -/
def of_id (id : Int) : ConnectionID := { id := id, pk := [], route := [] }

/-- The private constructor `ConnectionID(int64_t id, std::string pubkey, std::string route)`. -/
def of_id_pubkey_route (id : Int) (pubkey route : Str) : ConnectionID :=
  { id := id, pk := pubkey, route := route }

/-- The default constructor `ConnectionID()`, which delegates to `ConnectionID(0)`. -/
def default_ctor : ConnectionID := of_id 0

/-- The constructor `ConnectionID(std::string pubkey_)`: the members are initialised to
`MN_ID`, the pubkey and the empty route, then the body throws unless the pubkey has 32 bytes. -/
def of_string (pubkey_ : Str) : Except Exception ConnectionID :=
  let self : ConnectionID := { id := MN_ID, pk := pubkey_, route := [] }
  if self.pk.length ≠ 32 then
    Except.error (Exception.runtime_error "Invalid pubkey: expected 32 bytes")
  else
    Except.ok self

/-- The constructor `ConnectionID(std::string_view pubkey_)`, which copies the view into a
`std::string` and delegates. -/
def of_string_view (pubkey_ : Str) : Except Exception ConnectionID :=
  of_string pubkey_

/-- The member `mn()`. -/
def mn (self : ConnectionID) : Bool := decide (self.id = MN_ID)

/-- The conversion `explicit operator bool()`. -/
def operator_bool (self : ConnectionID) : Bool := decide (self.id ≠ 0)

/-- The member `operator==`. -/
def operator_eq (self o : ConnectionID) : Bool :=
  if self.mn && o.mn then decide (self.pk = o.pk)
  else decide (self.id = o.id) && decide (self.route = o.route)

/-- The member `operator!=`. -/
def operator_ne (self o : ConnectionID) : Bool := !(self.operator_eq o)

/-- The member `operator<`. -/
def operator_lt (self o : ConnectionID) : Bool :=
  if self.mn && o.mn then std_string_lt self.pk o.pk
  else decide (self.id < o.id) || (decide (self.id = o.id) && std_string_lt self.route o.route)

/-- The member `pubkey()`. -/
def pubkey (self : ConnectionID) : Str := self.pk

/-- The member `unrouted()`. It is not declared `const`, so the embedding returns the new id
together with the receiver as the call leaves it; the body assigns to no member. -/
def unrouted (self : ConnectionID) : ConnectionID × ConnectionID :=
  (of_id_pubkey_route self.id self.pk [], self)

end ConnectionID

/-- The specialisation `std::hash<bmq::ConnectionID>`; the sum of the two `size_t` values wraps. -/
def hash_ConnectionID (impl : StdImpl) (c : ConnectionID) : Nat :=
  if c.mn then already_hashed impl c.pk
  else (impl.hash_int64 c.id + impl.hash_string c.route) % size_t_mod impl

/-! ## A sample implementation -/

/-- The 64-bit FNV-1a hash of a string, a sample `std::hash<std::string>`. -/
def fnv1a_64 (s : Str) : Nat :=
  s.foldl (fun h b => ((h ^^^ b.val) * 1099511628211) % 2 ^ 64) 14695981039346656037

/-- A sample implementation for evaluating the definitions: an 8-byte little-endian `size_t`,
`std::hash<int64_t>` the conversion of the integer to `size_t`, and `std::hash<std::string>`
the 64-bit FNV-1a hash. -/
def StdImpl.sample64 : StdImpl where
  sizeof_size_t := 8
  little_endian := true
  hash_int64 := fun i => (i % 2 ^ 64).toNat
  hash_string := fun s => fnv1a_64 s % 2 ^ 64
  hash_int64_lt := by
    intro i
    show (i % 2 ^ 64).toNat < 2 ^ (8 * 8)
    have h1 : i % 2 ^ 64 < 2 ^ 64 := Int.emod_lt_of_pos i (by norm_num)
    have h0 : 0 ≤ i % 2 ^ 64 := Int.emod_nonneg i (by norm_num)
    omega
  hash_string_lt := fun s => Nat.mod_lt _ (by norm_num)

/-! ## Reading the buffer of a string -/

/-- The read of the first `n` bytes of the buffer of `s`, as `std::memcpy(&hash, &s[0], n)` does
it: the bytes when the string holds that many, and `none` when the read would run past the end
of the string. -/
def memcpy_read (s : Str) (n : Nat) : Option Str :=
  if n ≤ s.length then some (s.take n) else none

/-- The functor `already_hashed` with the bounds of its read checked: the same branches as
`already_hashed`, the copy going through `memcpy_read`. -/
def already_hashed_checked (impl : StdImpl) (s : Str) : Option Nat :=
  if s.length < impl.sizeof_size_t then some (impl.hash_string s)
  else (memcpy_read s impl.sizeof_size_t).map (memcpy_value impl)

/-! ## The admission check of the auth engine -/

/-- Modelled from the spec: the classification of a peer that the auth engine keeps per
connection (spec section 4.4). The engine is part of the `BMQ` class, whose sources are missing;
only `Access` and `AuthLevel` are in `auth.h`. A peer has an effective auth level and is or is
not a recognised MN. -/
structure Peer where
  auth_level : AuthLevel
  is_mn : Bool
deriving DecidableEq, Repr

/-- Modelled from the spec: the verdict of the admission check of the missing `BMQ` proxy:
the command is dispatched, or refused with `FORBIDDEN` (insufficient auth), or refused with
`FORBIDDEN_MN` (MN requirement unmet). -/
inductive Admission where
  | dispatch
  | forbidden
  | forbidden_mn
deriving DecidableEq, Repr

/-- Modelled from the spec: the check the missing `BMQ` proxy runs on each incoming command
before dispatch (spec sections 3, 4.4 and 8). A command is admitted when the effective level of
the connection is at least the level the category requires, and the peer is a recognised MN if
`remote_mn` is set, and this node is an MN if `local_mn` is set. The spec names the reply of
each failure, `FORBIDDEN` for an insufficient level and `FORBIDDEN_MN` for an unmet MN
requirement, and fixes one precedence among them: in section 8 every request of a non-MN peer
to a `remote_mn` category yields `FORBIDDEN_MN`, so that test comes first. The level and
`local_mn` follow in the order section 4.4 lists them. -/
def check_auth (peer : Peer) (local_is_mn : Bool) (access : Access) : Admission :=
  if access.remote_mn && !peer.is_mn then Admission.forbidden_mn
  else if peer.auth_level.operator_lt access.auth then Admission.forbidden
  else if access.local_mn && !local_is_mn then Admission.forbidden_mn
  else Admission.dispatch

/-- Modelled from the spec: what the missing `BMQ` proxy does with an incoming command (spec
sections 4.4 and 7): the handler is invoked, or the sender is answered with reply parts, or the
command is dropped. -/
inductive Outcome where
  | handler_invoked
  | replied (parts : List String)
  | dropped
deriving DecidableEq, Repr

/-- Modelled from the spec: the handling of an incoming command by the missing `BMQ` proxy
(spec sections 4.4 and 7): an admitted command goes to its handler; a refused request is
answered with the one-part reply `FORBIDDEN` or `FORBIDDEN_MN`, a refused notification is
dropped. -/
def proxy_incoming (peer : Peer) (local_is_mn : Bool) (access : Access)
    (is_request : Bool) : Outcome :=
  match check_auth peer local_is_mn access with
  | Admission.dispatch => Outcome.handler_invoked
  | Admission.forbidden =>
    if is_request then Outcome.replied ["FORBIDDEN"] else Outcome.dropped
  | Admission.forbidden_mn =>
    if is_request then Outcome.replied ["FORBIDDEN_MN"] else Outcome.dropped

/-- Modelled from the spec: what the callback `(success, data)` of a pending request of the
missing `BMQ` class sees when a frame answers the request (spec sections 3, 4.1, 6 and 8). A
frame `REPLY`, reply tag, body parts is the reply of the handler and is delivered as
`success = true` with the body parts; the one-part refusals `FORBIDDEN` and `FORBIDDEN_MN` are
delivered as `success = false` with that part as data, as the test "MN auth checks" observes.
Other frames do not complete a request here. -/
def requester_callback : List String → Option (Bool × List String)
  | "REPLY" :: _ :: body => some (true, body)
  | ["FORBIDDEN"] => some (false, ["FORBIDDEN"])
  | ["FORBIDDEN_MN"] => some (false, ["FORBIDDEN_MN"])
  | _ => none

/-- Modelled from the spec: what the callback of the requester sees for the outcome the missing
`BMQ` proxy decides for a request by itself: the delivery of the reply parts when the proxy
answered; nothing when the handler was invoked (the reply is then up to the handler) or the
command was dropped. -/
def outcome_callback : Outcome → Option (Bool × List String)
  | Outcome.replied parts => requester_callback parts
  | Outcome.handler_invoked => none
  | Outcome.dropped => none

/-! ## The timer wheel -/

/-- Modelled from the spec: a timer entry of the timer wheel of the missing `BMQ` proxy (spec
sections 3 and 4.5): interval, next-fire deadline, squelch flag and running flag (the handler is
left out), together with the number of invocations of the handler that were enqueued on the
batch lane and have not finished yet. -/
structure TimerState where
  interval : Nat
  next_fire : Nat
  squelch : Bool
  running : Bool
  in_flight : Nat
deriving DecidableEq, Repr

/-- Modelled from the spec: the two things that happen to a timer of the missing `BMQ` proxy:
an iteration of the proxy loop at time `now`, and the end of one invocation of the handler on a
worker. Their interleaving is arbitrary. -/
inductive TimerEvent where
  | proxy_iteration (now : Nat)
  | invocation_finished
deriving DecidableEq, Repr

/-- Modelled from the spec: the operation `add_timer` of the missing `BMQ` class: a new entry
with nothing running, due one interval from now. -/
def add_timer (interval : Nat) (squelch : Bool) (now : Nat) : TimerState :=
  ⟨interval, now + interval, squelch, false, 0⟩

/-- Modelled from the spec: one step of a timer of the missing `BMQ` proxy (spec section 4.5).
On a loop iteration a timer whose deadline has passed has `next_fire` advanced by the interval
and is enqueued on the batch lane, unless `squelch` is set and the previous invocation is still
running, in which case it is not enqueued. When an invocation finishes it leaves the lane, and
the running flag stays set while others remain. -/
def timer_step (t : TimerState) : TimerEvent → TimerState
  | TimerEvent.proxy_iteration now =>
    if t.next_fire ≤ now then
      if t.squelch && t.running then
        ⟨t.interval, t.next_fire + t.interval, t.squelch, t.running, t.in_flight⟩
      else
        ⟨t.interval, t.next_fire + t.interval, t.squelch, true, t.in_flight + 1⟩
    else t
  | TimerEvent.invocation_finished =>
    if t.in_flight = 0 then t
    else ⟨t.interval, t.next_fire, t.squelch, decide (0 < t.in_flight - 1), t.in_flight - 1⟩

/-- Modelled from the spec: the state of a timer of the missing `BMQ` proxy after a sequence of
events, oldest first. -/
def timer_run (t : TimerState) (events : List TimerEvent) : TimerState :=
  events.foldl timer_step t

end bmq

namespace bmq

/-! ## Equality of ConnectionIDs -/

/-- An id with the internal id of an MN id is an MN id. -/
theorem mn_of_id_eq (a b : ConnectionID) (h : a.id = b.id) : a.mn = b.mn := by
  simp [ConnectionID.mn, h]

/-- The two ways `operator==` returns true: both ids are MN ids with the same pubkey, or
neither is and they have the same internal id and route. -/
theorem operator_eq_cases (a b : ConnectionID) :
    a.operator_eq b = true ↔
      (a.mn = true ∧ b.mn = true ∧ a.pk = b.pk) ∨
      (a.mn = false ∧ b.mn = false ∧ a.id = b.id ∧ a.route = b.route) := by
  unfold ConnectionID.operator_eq
  cases ha : a.mn <;> cases hb : b.mn
  · simp
  · have hne : a.id ≠ b.id := fun h => by
      have := mn_of_id_eq a b h
      rw [ha, hb] at this
      exact absurd this (by decide)
    simp [hne]
  · have hne : a.id ≠ b.id := fun h => by
      have := mn_of_id_eq a b h
      rw [ha, hb] at this
      exact absurd this (by decide)
    simp [hne]
  · simp

/-- C1: two MN ids compare equal with `operator==` exactly when their pubkeys are equal, whatever
their route tokens are. -/
theorem operator_eq_mn_iff_pubkey (a b : ConnectionID)
    (ha : a.mn = true) (hb : b.mn = true) :
    a.operator_eq b = true ↔ a.pubkey = b.pubkey := by
  simp [ConnectionID.operator_eq, ConnectionID.pubkey, ha, hb]

/-- C1 at two MN ids with the same pubkey and different routes, which compare equal. -/
theorem operator_eq_mn_iff_pubkey_witness :
    (ConnectionID.operator_eq ⟨-1, [7, 8], [1]⟩ ⟨-1, [7, 8], [2, 3]⟩ = true ↔
      ConnectionID.pubkey ⟨-1, [7, 8], [1]⟩ = ConnectionID.pubkey ⟨-1, [7, 8], [2, 3]⟩) ∧
    ConnectionID.operator_eq ⟨-1, [7, 8], [1]⟩ ⟨-1, [7, 8], [2, 3]⟩ = true :=
  ⟨operator_eq_mn_iff_pubkey ⟨-1, [7, 8], [1]⟩ ⟨-1, [7, 8], [2, 3]⟩ (by decide) (by decide),
    by decide⟩

/-- C2: two non-MN ids compare equal with `operator==` exactly when their internal ids are equal
and their route tokens are equal; the pubkeys are not looked at. -/
theorem operator_eq_non_mn_iff_id_route (a b : ConnectionID)
    (ha : a.mn = false) (hb : b.mn = false) :
    a.operator_eq b = true ↔ (a.id = b.id ∧ a.route = b.route) := by
  simp [ConnectionID.operator_eq, ha, hb]

/-- C2 at two non-MN ids with the same id and route and different pubkeys, which compare
equal. -/
theorem operator_eq_non_mn_iff_id_route_witness :
    (ConnectionID.operator_eq ⟨5, [1], [9]⟩ ⟨5, [2, 2], [9]⟩ = true ↔
      ((5 : Int) = 5 ∧ ([9] : Str) = [9])) ∧
    ConnectionID.operator_eq ⟨5, [1], [9]⟩ ⟨5, [2, 2], [9]⟩ = true :=
  ⟨operator_eq_non_mn_iff_id_route ⟨5, [1], [9]⟩ ⟨5, [2, 2], [9]⟩ (by decide) (by decide),
    by decide⟩

/-! ## The order of strings -/

theorem std_string_lt_irrefl (s : Str) : std_string_lt s s = false := by
  induction s with
  | nil => rfl
  | cons a as ih => simp [std_string_lt, ih]

theorem std_string_lt_asymm (s t : Str) (h : std_string_lt s t = true) :
    std_string_lt t s = false := by
  induction s generalizing t with
  | nil => cases t <;> simp [std_string_lt] at h ⊢
  | cons a as ih =>
    cases t with
    | nil => simp [std_string_lt] at h
    | cons b bs =>
      simp only [std_string_lt] at h ⊢
      by_cases hab : a < b
      · have hba : ¬ b < a := not_lt.mpr (le_of_lt hab)
        simp [hba, hab]
      · by_cases hba : b < a
        · simp [hab, hba] at h
        · simp only [hab, hba, if_false] at h ⊢
          exact ih bs h

theorem std_string_lt_total (s t : Str) (h : s ≠ t) :
    std_string_lt s t = true ∨ std_string_lt t s = true := by
  induction s generalizing t with
  | nil =>
    cases t with
    | nil => exact absurd rfl h
    | cons b bs => simp [std_string_lt]
  | cons a as ih =>
    cases t with
    | nil => simp [std_string_lt]
    | cons b bs =>
      simp only [std_string_lt]
      by_cases hab : a < b
      · simp [hab]
      · by_cases hba : b < a
        · simp [hba]
        · have hEq : a = b := le_antisymm (not_lt.mp hba) (not_lt.mp hab)
          have hne : as ≠ bs := fun hc => h (by rw [hEq, hc])
          simpa [hab, hba] using ih bs hne

/-- Exactly one of `s < t`, `s == t`, `t < s` holds for two strings. -/
theorem std_string_lt_trichotomy (s t : Str) :
    (std_string_lt s t = true ∧ s ≠ t ∧ std_string_lt t s = false) ∨
    (std_string_lt s t = false ∧ s = t ∧ std_string_lt t s = false) ∨
    (std_string_lt s t = false ∧ s ≠ t ∧ std_string_lt t s = true) := by
  by_cases hst : s = t
  · subst hst
    exact Or.inr (Or.inl ⟨std_string_lt_irrefl s, rfl, std_string_lt_irrefl s⟩)
  · rcases std_string_lt_total s t hst with h | h
    · exact Or.inl ⟨h, hst, std_string_lt_asymm s t h⟩
    · exact Or.inr (Or.inr ⟨std_string_lt_asymm t s h, hst, h⟩)

/-! ## Hashing respects equality -/

/-- C3: two ids that compare equal with `operator==` have the same `std::hash<ConnectionID>`
value, for every width of `size_t` and every pair of standard hash functions. -/
theorem hash_eq_of_operator_eq (impl : StdImpl) (a b : ConnectionID)
    (h : a.operator_eq b = true) :
    hash_ConnectionID impl a = hash_ConnectionID impl b := by
  unfold ConnectionID.operator_eq at h
  unfold hash_ConnectionID
  by_cases ha : a.mn = true
  · by_cases hb : b.mn = true
    · simp only [ha, hb, Bool.and_self, if_true, decide_eq_true_eq] at h
      simp [ha, hb, h]
    · simp only [ha, hb, Bool.and_false, Bool.false_eq_true, if_false, Bool.and_eq_true,
        decide_eq_true_eq] at h
      exact absurd (by simpa [ConnectionID.mn, h.1] using ha) hb
  · simp only [ha, Bool.false_and, Bool.false_eq_true, if_false, Bool.and_eq_true,
      decide_eq_true_eq] at h
    have hb : ¬ b.mn = true := fun hb => ha (by simpa [ConnectionID.mn, h.1] using hb)
    simp [ha, hb, h.1, h.2]

/-! ## The order of ConnectionIDs -/

/-- The flags of the two operands commute in the test `mn() && o.mn()`. -/
theorem mn_and_comm (a b : ConnectionID) : (b.mn && a.mn) = (a.mn && b.mn) :=
  Bool.and_comm _ _

/-- Exactly one of `a < b`, `a == b`, `b < a` holds for two ids. -/
theorem operator_lt_exactly_one (a b : ConnectionID) :
    (a.operator_lt b = true ∧ a.operator_eq b = false ∧ b.operator_lt a = false) ∨
    (a.operator_lt b = false ∧ a.operator_eq b = true ∧ b.operator_lt a = false) ∨
    (a.operator_lt b = false ∧ a.operator_eq b = false ∧ b.operator_lt a = true) := by
  unfold ConnectionID.operator_lt ConnectionID.operator_eq
  rw [mn_and_comm a b]
  by_cases hmn : (a.mn && b.mn) = true
  · simp only [hmn, if_true]
    rcases std_string_lt_trichotomy a.pk b.pk with ⟨h1, h2, h3⟩ | ⟨h1, h2, h3⟩ | ⟨h1, h2, h3⟩
    · exact Or.inl ⟨h1, by simpa using h2, h3⟩
    · exact Or.inr (Or.inl ⟨h1, by simpa using h2, h3⟩)
    · exact Or.inr (Or.inr ⟨h1, by simpa using h2, h3⟩)
  · simp only [hmn, if_false]
    rcases lt_trichotomy a.id b.id with hlt | heq | hgt
    · have hne : a.id ≠ b.id := ne_of_lt hlt
      have hnlt : ¬ b.id < a.id := not_lt.mpr (le_of_lt hlt)
      exact Or.inl (by simp [hlt, hne, hne.symm, hnlt])
    · have hirr : ¬ b.id < b.id := lt_irrefl _
      rcases std_string_lt_trichotomy a.route b.route with
        ⟨h1, h2, h3⟩ | ⟨h1, h2, h3⟩ | ⟨h1, h2, h3⟩
      · exact Or.inl (by simp [heq, hirr, h1, h2, h3])
      · exact Or.inr (Or.inl (by simp [heq, hirr, h2, std_string_lt_irrefl]))
      · exact Or.inr (Or.inr (by simp [heq, hirr, h1, h2, h3]))
    · have hne : a.id ≠ b.id := ne_of_gt hgt
      have hnlt : ¬ a.id < b.id := not_lt.mpr (le_of_lt hgt)
      exact Or.inr (Or.inr (by simp [hgt, hne, hne.symm, hnlt]))

/-- C4: for every two ids exactly one of `a < b`, `a == b`, `b < a` holds; `operator<` is
irreflexive and asymmetric, and two ids are unordered by `<` exactly when `operator==` says they
are equal. -/
theorem operator_lt_trichotomy (a b : ConnectionID) :
    ((a.operator_lt b = true ∧ a.operator_eq b = false ∧ b.operator_lt a = false) ∨
      (a.operator_lt b = false ∧ a.operator_eq b = true ∧ b.operator_lt a = false) ∨
      (a.operator_lt b = false ∧ a.operator_eq b = false ∧ b.operator_lt a = true)) ∧
    a.operator_lt a = false ∧
    (a.operator_lt b = true → b.operator_lt a = false) ∧
    ((a.operator_lt b = false ∧ b.operator_lt a = false) ↔ a.operator_eq b = true) := by
  refine ⟨operator_lt_exactly_one a b, ?_, ?_, ?_⟩
  · rcases operator_lt_exactly_one a a with ⟨h1, _, h3⟩ | ⟨h1, _, _⟩ | ⟨h1, _, _⟩
    · rw [h1] at h3
      exact absurd h3 (by decide)
    · exact h1
    · exact h1
  · intro hab
    rcases operator_lt_exactly_one a b with ⟨_, _, h3⟩ | ⟨h1, _, _⟩ | ⟨h1, _, _⟩
    · exact h3
    · rw [h1] at hab
      exact absurd hab (by decide)
    · rw [h1] at hab
      exact absurd hab (by decide)
  · rcases operator_lt_exactly_one a b with ⟨h1, h2, h3⟩ | ⟨h1, h2, h3⟩ | ⟨h1, h2, h3⟩ <;>
      simp [h1, h2, h3]

/-- C4 at an MN id and a non-MN id with the same pubkey and route: the MN id is the smaller one,
and the two are neither equal nor ordered the other way. -/
theorem operator_lt_trichotomy_witness :
    ConnectionID.operator_lt ⟨-1, [3], [4]⟩ ⟨2, [3], [4]⟩ = true ∧
    ConnectionID.operator_lt ⟨2, [3], [4]⟩ ⟨-1, [3], [4]⟩ = false :=
  ⟨by decide, (operator_lt_trichotomy ⟨-1, [3], [4]⟩ ⟨2, [3], [4]⟩).2.2.1 (by decide)⟩

/-- C3 at two non-MN ids with different pubkeys, which compare equal. -/
theorem hash_eq_of_operator_eq_witness :
    ConnectionID.operator_eq ⟨4, [1], [9]⟩ ⟨4, [2], [9]⟩ = true ∧
    hash_ConnectionID StdImpl.sample64 ⟨4, [1], [9]⟩ =
      hash_ConnectionID StdImpl.sample64 ⟨4, [2], [9]⟩ :=
  ⟨by decide, hash_eq_of_operator_eq StdImpl.sample64 ⟨4, [1], [9]⟩ ⟨4, [2], [9]⟩ (by decide)⟩

/-! ## Construction -/

/-- C5: the constructors from a pubkey string and from a string view throw `std::runtime_error`
exactly when the string does not have 32 bytes, and from a 32-byte string they build an id with
`mn()` true, `pubkey()` the string and `operator bool` true. -/
theorem of_string_throws_iff (pk : Str) :
    ((∃ what, ConnectionID.of_string pk = Except.error (Exception.runtime_error what)) ↔
      pk.length ≠ 32) ∧
    ((∃ what, ConnectionID.of_string_view pk = Except.error (Exception.runtime_error what)) ↔
      pk.length ≠ 32) ∧
    (pk.length = 32 →
      ∃ c, ConnectionID.of_string pk = Except.ok c ∧ ConnectionID.of_string_view pk = Except.ok c ∧
        c.mn = true ∧ c.pubkey = pk ∧ c.operator_bool = true) := by
  by_cases h : pk.length = 32
  · simp [ConnectionID.of_string_view, ConnectionID.of_string, h, ConnectionID.mn,
      ConnectionID.pubkey, ConnectionID.operator_bool, ConnectionID.MN_ID]
  · simp [ConnectionID.of_string_view, ConnectionID.of_string, h]

/-- C5 at a 32-byte pubkey. -/
theorem of_string_throws_iff_witness :
    ∃ c, ConnectionID.of_string (List.replicate 32 7) = Except.ok c ∧
      ConnectionID.of_string_view (List.replicate 32 7) = Except.ok c ∧
      c.mn = true ∧ c.pubkey = List.replicate 32 7 ∧ c.operator_bool = true :=
  (of_string_throws_iff (List.replicate 32 7)).2.2 (by decide)

/-- C6: a default-constructed id is invalid (`operator bool` false), is not an MN id, and
compares equal to a default-constructed id; for every id `operator bool` is false exactly when
the internal id is zero. -/
theorem default_ctor_invalid :
    ConnectionID.default_ctor.operator_bool = false ∧
    ConnectionID.default_ctor.mn = false ∧
    ConnectionID.default_ctor.operator_eq ConnectionID.default_ctor = true ∧
    ConnectionID.default_ctor.operator_ne ConnectionID.default_ctor = false ∧
    ∀ c : ConnectionID, c.operator_bool = false ↔ c.id = 0 := by
  refine ⟨by decide, by decide, by decide, by decide, ?_⟩
  intro c
  simp [ConnectionID.operator_bool]

/-! ## Distinct connections -/

/-- Adding the same `size_t` on the left and wrapping keeps two `size_t` values apart. -/
theorem add_left_mod_inj {m x y z : Nat} (hy : y < m) (hz : z < m) :
    (x + y) % m = (x + z) % m ↔ y = z := by
  constructor
  · intro h
    have h2 : y % m = z % m := Nat.ModEq.add_left_cancel' x h
    rwa [Nat.mod_eq_of_lt hy, Nat.mod_eq_of_lt hz] at h2
  · intro h
    rw [h]

/-- Adding the same `size_t` on the right and wrapping keeps two `size_t` values apart. -/
theorem add_right_mod_inj {m x y z : Nat} (hy : y < m) (hz : z < m) :
    (y + x) % m = (z + x) % m ↔ y = z := by
  rw [Nat.add_comm y x, Nat.add_comm z x]
  exact add_left_mod_inj hy hz

/-- C7 as stated fails: whatever the standard hash functions are, two non-MN ids with the same
internal id and different routes have the same `std::hash<ConnectionID>` value; and with the
sample implementation the ids `(1, "", "\x00")` and `(1099511628212, "", "\x01")`, which differ
in both internal id and route, hash to the same value. -/
theorem distinct_non_mn_ids_hash_collision :
    (¬ ∃ impl : StdImpl, ∀ a b : ConnectionID, a.mn = false → b.mn = false →
        (a.id ≠ b.id ∨ a.route ≠ b.route) →
        a.operator_eq b = false ∧ hash_ConnectionID impl a ≠ hash_ConnectionID impl b) ∧
    (ConnectionID.mn ⟨1, [], [0]⟩ = false ∧ ConnectionID.mn ⟨1099511628212, [], [1]⟩ = false ∧
      (1 : Int) ≠ 1099511628212 ∧ ([0] : Str) ≠ [1] ∧
      hash_ConnectionID StdImpl.sample64 ⟨1, [], [0]⟩ =
        hash_ConnectionID StdImpl.sample64 ⟨1099511628212, [], [1]⟩) := by
  refine ⟨?_, by decide, by decide, by decide, by decide, by decide⟩
  rintro ⟨impl, h⟩
  have hpos : 0 < size_t_mod impl := by
    unfold size_t_mod
    positivity
  let f : Str → Fin (size_t_mod impl) := fun r =>
    ⟨(impl.hash_int64 1 + impl.hash_string r) % size_t_mod impl, Nat.mod_lt _ hpos⟩
  obtain ⟨x, y, hne, hxy⟩ := Finite.exists_ne_map_eq_of_infinite f
  have hval : (impl.hash_int64 1 + impl.hash_string x) % size_t_mod impl =
      (impl.hash_int64 1 + impl.hash_string y) % size_t_mod impl := congrArg Fin.val hxy
  have hmn : ∀ r : Str, ConnectionID.mn ⟨1, [], r⟩ = false := fun _ => rfl
  have hcl := (h ⟨1, [], x⟩ ⟨1, [], y⟩ (hmn x) (hmn y) (Or.inr hne)).2
  apply hcl
  simp only [hash_ConnectionID, hmn, Bool.false_eq_true, if_false]
  exact hval

/-- C7, amended: two non-MN ids that differ in internal id or in route compare unequal. Their
hashes are the wrapped sums of the standard hashes of id and route, so they are equal exactly
when those sums agree: with the same internal id exactly when the routes have the same
`std::hash<std::string>`, with the same route exactly when the internal ids have the same
`std::hash<int64_t>`. -/
theorem distinct_non_mn_ids_not_equal (impl : StdImpl) (a b : ConnectionID)
    (ha : a.mn = false) (hb : b.mn = false) (hd : a.id ≠ b.id ∨ a.route ≠ b.route) :
    a.operator_eq b = false ∧ a.operator_ne b = true ∧
    (hash_ConnectionID impl a = hash_ConnectionID impl b ↔
      (impl.hash_int64 a.id + impl.hash_string a.route) % size_t_mod impl =
        (impl.hash_int64 b.id + impl.hash_string b.route) % size_t_mod impl) ∧
    (a.id = b.id → (hash_ConnectionID impl a = hash_ConnectionID impl b ↔
      impl.hash_string a.route = impl.hash_string b.route)) ∧
    (a.route = b.route → (hash_ConnectionID impl a = hash_ConnectionID impl b ↔
      impl.hash_int64 a.id = impl.hash_int64 b.id)) := by
  have hEq : a.operator_eq b = false := by
    cases hc : a.operator_eq b with
    | false => rfl
    | true =>
      rcases (operator_eq_cases a b).mp hc with ⟨hma, _, _⟩ | ⟨_, _, hid, hroute⟩
      · rw [ha] at hma
        exact absurd hma (by decide)
      · rcases hd with hd | hd
        · exact absurd hid hd
        · exact absurd hroute hd
  refine ⟨hEq, by simp [ConnectionID.operator_ne, hEq], ?_, ?_, ?_⟩
  · simp [hash_ConnectionID, ha, hb]
  · intro hid
    simp only [hash_ConnectionID, ha, hb, Bool.false_eq_true, if_false, hid]
    exact add_left_mod_inj (impl.hash_string_lt _) (impl.hash_string_lt _)
  · intro hr
    simp only [hash_ConnectionID, ha, hb, Bool.false_eq_true, if_false, hr]
    exact add_right_mod_inj (impl.hash_int64_lt _) (impl.hash_int64_lt _)

/-- C7, amended, at two non-MN ids with the same internal id and different routes. -/
theorem distinct_non_mn_ids_not_equal_witness :
    ConnectionID.operator_eq ⟨3, [], [0, 0, 0, 0, 1]⟩ ⟨3, [], [0, 0, 0, 0, 2]⟩ = false ∧
    hash_ConnectionID StdImpl.sample64 ⟨3, [], [0, 0, 0, 0, 1]⟩ ≠
      hash_ConnectionID StdImpl.sample64 ⟨3, [], [0, 0, 0, 0, 2]⟩ :=
  have h := distinct_non_mn_ids_not_equal StdImpl.sample64
    ⟨3, [], [0, 0, 0, 0, 1]⟩ ⟨3, [], [0, 0, 0, 0, 2]⟩ (by decide) (by decide)
    (Or.inr (by decide))
  ⟨h.1, fun hc => absurd ((h.2.2.2.1 rfl).mp hc) (by decide)⟩

/-! ## Authentication levels and access -/

/-- C8: the four levels are strictly ordered `denied < none < basic < admin` by the built-in
comparison, which is irreflexive and transitive, and any two distinct levels are comparable in
exactly one direction. -/
theorem AuthLevel_strict_total_order :
    AuthLevel.operator_lt AuthLevel.denied AuthLevel.none = true ∧
    AuthLevel.operator_lt AuthLevel.none AuthLevel.basic = true ∧
    AuthLevel.operator_lt AuthLevel.basic AuthLevel.admin = true ∧
    (∀ a : AuthLevel, a.operator_lt a = false) ∧
    (∀ a b c : AuthLevel, a.operator_lt b = true → b.operator_lt c = true →
      a.operator_lt c = true) ∧
    (∀ a b : AuthLevel, a ≠ b →
      (a.operator_lt b = true ∧ b.operator_lt a = false) ∨
      (a.operator_lt b = false ∧ b.operator_lt a = true)) := by
  refine ⟨by decide, by decide, by decide, ?_, ?_, ?_⟩
  · intro a
    cases a <;> decide
  · intro a b c
    cases a <;> cases b <;> cases c <;> decide
  · intro a b
    cases a <;> cases b <;> decide

/-- C9: the conversion from an `AuthLevel` keeps the level and clears both flags, the default
`Access` has level `none` and both flags clear, and the three-argument constructor stores its
arguments. -/
theorem Access_ctor_fields :
    (∀ a : AuthLevel, (Access.of_AuthLevel a).auth = a ∧
      (Access.of_AuthLevel a).remote_mn = false ∧ (Access.of_AuthLevel a).local_mn = false) ∧
    (Access.default_ctor.auth = AuthLevel.none ∧ Access.default_ctor.remote_mn = false ∧
      Access.default_ctor.local_mn = false) ∧
    (∀ (a : AuthLevel) (r l : Bool), (Access.ctor a r l).auth = a ∧
      (Access.ctor a r l).remote_mn = r ∧ (Access.ctor a r l).local_mn = l) :=
  ⟨fun _ => ⟨rfl, rfl, rfl⟩, ⟨rfl, rfl, rfl⟩, fun _ _ _ => ⟨rfl, rfl, rfl⟩⟩

/-! ## Dropping the route -/

/-- C10: `unrouted()` returns an id with the empty route and the internal id and pubkey of the
receiver, so that `mn()` and `operator bool` agree with the receiver, and leaves the receiver as
it was. -/
theorem unrouted_clears_route_only (c : ConnectionID) :
    c.unrouted.1.route = [] ∧ c.unrouted.1.id = c.id ∧ c.unrouted.1.pk = c.pk ∧
    c.unrouted.1.pubkey = c.pubkey ∧ c.unrouted.1.mn = c.mn ∧
    c.unrouted.1.operator_bool = c.operator_bool ∧ c.unrouted.2 = c :=
  ⟨rfl, rfl, rfl, rfl, rfl, rfl, rfl⟩

/-! ## Requests from peers that are not MNs -/

/-- The admission check dispatches exactly when the three requirements of the category hold. -/
theorem check_auth_dispatch_iff (peer : Peer) (local_is_mn : Bool) (access : Access) :
    check_auth peer local_is_mn access = Admission.dispatch ↔
      (peer.auth_level.operator_lt access.auth = false ∧
        (access.remote_mn = true → peer.is_mn = true) ∧
        (access.local_mn = true → local_is_mn = true)) := by
  unfold check_auth
  cases peer.auth_level.operator_lt access.auth <;> cases access.remote_mn <;>
    cases peer.is_mn <;> cases access.local_mn <;> cases local_is_mn <;> decide

/-- The admission check refuses with `FORBIDDEN` only when the level is insufficient, and with
`FORBIDDEN_MN` only when an MN requirement is unmet. -/
theorem check_auth_refusal_cause (peer : Peer) (local_is_mn : Bool) (access : Access) :
    (check_auth peer local_is_mn access = Admission.forbidden →
      peer.auth_level.operator_lt access.auth = true) ∧
    (check_auth peer local_is_mn access = Admission.forbidden_mn →
      (access.remote_mn = true ∧ peer.is_mn = false) ∨
      (access.local_mn = true ∧ local_is_mn = false)) := by
  unfold check_auth
  cases peer.auth_level.operator_lt access.auth <;> cases access.remote_mn <;>
    cases peer.is_mn <;> cases access.local_mn <;> cases local_is_mn <;> decide

/-- The callback of a request tells a reply of the handler from a refusal: the first is
delivered with `success = true`, the second with `success = false`. -/
theorem requester_callback_success :
    requester_callback ["REPLY", "tag", "okay"] = some (true, ["okay"]) ∧
    requester_callback ["FORBIDDEN_MN"] = some (false, ["FORBIDDEN_MN"]) ∧
    requester_callback ["FORBIDDEN"] = some (false, ["FORBIDDEN"]) ∧
    requester_callback ["okay"] = none := by
  decide

/-- The sandwich scenario of the spec on the admission check: the same request of the same
peer is refused while the peer is not an MN and is handed to the handler once it is one; a
category without `remote_mn` admits the non-MN peer, and refuses it with `FORBIDDEN` when its
level is too low. -/
theorem proxy_incoming_sandwich :
    proxy_incoming (Peer.mk AuthLevel.none false) true
      (Access.ctor_auth_remote AuthLevel.none true) true = Outcome.replied ["FORBIDDEN_MN"] ∧
    proxy_incoming (Peer.mk AuthLevel.none true) true
      (Access.ctor_auth_remote AuthLevel.none true) true = Outcome.handler_invoked ∧
    proxy_incoming (Peer.mk AuthLevel.none false) true
      (Access.of_AuthLevel AuthLevel.none) true = Outcome.handler_invoked ∧
    proxy_incoming (Peer.mk AuthLevel.none false) true
      (Access.of_AuthLevel AuthLevel.admin) true = Outcome.replied ["FORBIDDEN"] ∧
    proxy_incoming (Peer.mk AuthLevel.none false) true
      (Access.of_AuthLevel AuthLevel.admin) false = Outcome.dropped := by
  decide

/-- C11: a command of a category with `remote_mn` set that comes from a peer classified as
non-MN is never dispatched to the handler, and a request is answered with the single reply part
`FORBIDDEN_MN`, which the callback of the requester sees as `success = false` and
`data = ["FORBIDDEN_MN"]`; this holds for every auth level of the peer and of the category and
whether or not this node is an MN. -/
theorem non_mn_request_refused (peer : Peer) (local_is_mn : Bool) (access : Access)
    (hp : peer.is_mn = false) (hr : access.remote_mn = true) :
    (∀ is_request : Bool,
      proxy_incoming peer local_is_mn access is_request ≠ Outcome.handler_invoked) ∧
    proxy_incoming peer local_is_mn access true = Outcome.replied ["FORBIDDEN_MN"] ∧
    outcome_callback (proxy_incoming peer local_is_mn access true) =
      some (false, ["FORBIDDEN_MN"]) := by
  have hchk : check_auth peer local_is_mn access = Admission.forbidden_mn := by
    simp [check_auth, hp, hr]
  refine ⟨?_, ?_, ?_⟩
  · intro is_request
    cases is_request <;> simp [proxy_incoming, hchk]
  · simp [proxy_incoming, hchk]
  · simp [proxy_incoming, hchk, outcome_callback, requester_callback]

/-- C11 at the request of the test "MN auth checks": a non-MN peer of level `none` and the
category `sandwich` with `Access{AuthLevel::none, true}`. -/
theorem non_mn_request_refused_witness :
    proxy_incoming (Peer.mk AuthLevel.none false) true
      (Access.ctor_auth_remote AuthLevel.none true) true = Outcome.replied ["FORBIDDEN_MN"] ∧
    outcome_callback (proxy_incoming (Peer.mk AuthLevel.none false) true
      (Access.ctor_auth_remote AuthLevel.none true) true) = some (false, ["FORBIDDEN_MN"]) :=
  (non_mn_request_refused (Peer.mk AuthLevel.none false) true
    (Access.ctor_auth_remote AuthLevel.none true) rfl rfl).2

/-! ## Squelched timers -/

/-- A step keeps the squelch flag. -/
theorem timer_step_squelch (t : TimerState) (e : TimerEvent) :
    (timer_step t e).squelch = t.squelch := by
  cases e with
  | proxy_iteration now =>
    simp only [timer_step]
    split_ifs <;> rfl
  | invocation_finished =>
    simp only [timer_step]
    split_ifs <;> rfl

/-- A step keeps the running flag in line with the invocations in flight. -/
theorem timer_step_running (t : TimerState) (e : TimerEvent)
    (h : t.running = decide (0 < t.in_flight)) :
    (timer_step t e).running = decide (0 < (timer_step t e).in_flight) := by
  cases e with
  | proxy_iteration now =>
    simp only [timer_step]
    split_ifs
    · exact h
    · simp
    · exact h
  | invocation_finished =>
    simp only [timer_step]
    split_ifs
    · exact h
    · rfl

/-- A step of a squelched timer whose flag is in line keeps at most one invocation in flight. -/
theorem timer_step_in_flight (t : TimerState) (e : TimerEvent)
    (hs : t.squelch = true) (hr : t.running = decide (0 < t.in_flight))
    (hle : t.in_flight ≤ 1) : (timer_step t e).in_flight ≤ 1 := by
  cases e with
  | proxy_iteration now =>
    simp only [timer_step]
    split_ifs with h1 h2
    · exact hle
    · have hrun : t.running = false := by
        cases hrn : t.running with
        | false => rfl
        | true => exact absurd (by simp [hs, hrn]) h2
      rw [hrun] at hr
      have h0 : ¬ 0 < t.in_flight := by
        intro hpos
        have := hr.symm
        simp [hpos] at this
      show t.in_flight + 1 ≤ 1
      omega
    · exact hle
  | invocation_finished =>
    simp only [timer_step]
    split_ifs
    · exact hle
    · show t.in_flight - 1 ≤ 1
      omega

/-- Every run of a squelched timer whose flag is in line keeps the three facts. -/
theorem timer_run_invariant (events : List TimerEvent) (t : TimerState)
    (hs : t.squelch = true) (hr : t.running = decide (0 < t.in_flight))
    (hle : t.in_flight ≤ 1) :
    (timer_run t events).squelch = true ∧
    (timer_run t events).running = decide (0 < (timer_run t events).in_flight) ∧
    (timer_run t events).in_flight ≤ 1 := by
  induction events generalizing t with
  | nil => exact ⟨hs, hr, hle⟩
  | cons e es ih =>
    have h := ih (timer_step t e) ((timer_step_squelch t e).trans hs)
      (timer_step_running t e hr) (timer_step_in_flight t e hs hr hle)
    simpa [timer_run] using h

/-- The timer model is not idle: a squelched timer is enqueued when due, is enqueued again once
its invocation has finished, and a timer without squelch piles up three invocations. -/
theorem timer_model_fires :
    (timer_run (add_timer 5 true 0) [TimerEvent.proxy_iteration 5]).in_flight = 1 ∧
    (timer_run (add_timer 5 true 0) [TimerEvent.proxy_iteration 5, TimerEvent.proxy_iteration 10,
      TimerEvent.invocation_finished]).in_flight = 0 ∧
    (timer_run (add_timer 5 true 0) [TimerEvent.proxy_iteration 5, TimerEvent.proxy_iteration 10,
      TimerEvent.invocation_finished, TimerEvent.proxy_iteration 15]).in_flight = 1 ∧
    (timer_run (add_timer 5 false 0) [TimerEvent.proxy_iteration 5, TimerEvent.proxy_iteration 10,
      TimerEvent.proxy_iteration 15]).in_flight = 3 := by
  decide

/-- C12: a timer added with `squelch = true` never has two invocations in flight, after any
sequence of loop iterations and finished invocations and at every point of it; while one
invocation is in flight a loop iteration does not enqueue the timer again, whatever the time. -/
theorem squelch_timer_never_overlaps (interval start : Nat) (events : List TimerEvent) :
    (∀ n : Nat, (timer_run (add_timer interval true start) (events.take n)).in_flight ≤ 1) ∧
    (timer_run (add_timer interval true start) events).in_flight ≤ 1 ∧
    (∀ now : Nat, (timer_run (add_timer interval true start) events).in_flight = 1 →
      (timer_step (timer_run (add_timer interval true start) events)
        (TimerEvent.proxy_iteration now)).in_flight = 1) := by
  have hinit : ∀ evs : List TimerEvent,
      (timer_run (add_timer interval true start) evs).squelch = true ∧
      (timer_run (add_timer interval true start) evs).running =
        decide (0 < (timer_run (add_timer interval true start) evs).in_flight) ∧
      (timer_run (add_timer interval true start) evs).in_flight ≤ 1 :=
    fun evs => timer_run_invariant evs (add_timer interval true start) rfl rfl (Nat.zero_le 1)
  refine ⟨fun n => (hinit (events.take n)).2.2, (hinit events).2.2, ?_⟩
  intro now h1
  obtain ⟨hs, hr, _⟩ := hinit events
  have hrun : (timer_run (add_timer interval true start) events).running = true := by
    rw [hr, h1]
    decide
  simp only [timer_step, hs, hrun, Bool.and_self, if_true]
  split_ifs
  · exact h1
  · exact h1

/-- C12 at a timer of interval 5 that comes due three times while its first invocation runs:
one invocation is in flight, and a further due iteration leaves it at one. -/
theorem squelch_timer_never_overlaps_witness :
    (timer_run (add_timer 5 true 0) [TimerEvent.proxy_iteration 5, TimerEvent.proxy_iteration 10,
      TimerEvent.proxy_iteration 15]).in_flight = 1 ∧
    (timer_step (timer_run (add_timer 5 true 0) [TimerEvent.proxy_iteration 5,
      TimerEvent.proxy_iteration 10, TimerEvent.proxy_iteration 15])
      (TimerEvent.proxy_iteration 20)).in_flight = 1 :=
  ⟨by decide, (squelch_timer_never_overlaps 5 0 [TimerEvent.proxy_iteration 5,
    TimerEvent.proxy_iteration 10, TimerEvent.proxy_iteration 15]).2.2 20 (by decide)⟩

/-! ## Transitivity of the order -/

/-- The comparison of two non-empty strings: the first bytes decide, or are equal and the rest
decides. -/
theorem std_string_lt_cons (a b : Byte) (as bs : Str) :
    std_string_lt (a :: as) (b :: bs) = true ↔ a < b ∨ (a = b ∧ std_string_lt as bs = true) := by
  simp only [std_string_lt]
  by_cases hab : a < b
  · simp [hab]
  · by_cases hba : b < a
    · have hne : a ≠ b := fun h => by
        rw [h] at hba
        exact lt_irrefl _ hba
      simp [hab, hba, hne]
    · have hEq : a = b := le_antisymm (not_lt.mp hba) (not_lt.mp hab)
      simp [hab, hba, hEq]

theorem std_string_lt_trans (s t u : Str) (hst : std_string_lt s t = true)
    (htu : std_string_lt t u = true) : std_string_lt s u = true := by
  induction s generalizing t u with
  | nil =>
    cases t with
    | nil => simp [std_string_lt] at hst
    | cons b bs =>
      cases u with
      | nil => simp [std_string_lt] at htu
      | cons c cs => rfl
  | cons a as ih =>
    cases t with
    | nil => simp [std_string_lt] at hst
    | cons b bs =>
      cases u with
      | nil => simp [std_string_lt] at htu
      | cons c cs =>
        rw [std_string_lt_cons] at hst htu ⊢
        rcases hst with hab | ⟨hab, hrest⟩
        · rcases htu with hbc | ⟨hbc, _⟩
          · exact Or.inl (lt_trans hab hbc)
          · exact Or.inl (hbc ▸ hab)
        · rcases htu with hbc | ⟨hbc, hrest2⟩
          · exact Or.inl (hab ▸ hbc)
          · exact Or.inr ⟨hab.trans hbc, ih bs cs hrest hrest2⟩

/-- An id is an MN id exactly when its internal id is `-1`. -/
theorem mn_eq_true_iff (a : ConnectionID) : a.mn = true ↔ a.id = -1 := by
  simp [ConnectionID.mn, ConnectionID.MN_ID]

/-- An id is a non-MN id exactly when its internal id is not `-1`. -/
theorem mn_eq_false_iff (a : ConnectionID) : a.mn = false ↔ a.id ≠ -1 := by
  simp [ConnectionID.mn, ConnectionID.MN_ID]

/-- The two ways `operator<` returns true: both ids are MN ids and the pubkeys are in order, or
one of them is not and the pairs of internal id and route are in order. -/
theorem operator_lt_cases (a b : ConnectionID) :
    a.operator_lt b = true ↔
      (a.mn = true ∧ b.mn = true ∧ std_string_lt a.pk b.pk = true) ∨
      ((a.mn = false ∨ b.mn = false) ∧
        (a.id < b.id ∨ (a.id = b.id ∧ std_string_lt a.route b.route = true))) := by
  unfold ConnectionID.operator_lt
  cases ha : a.mn <;> cases hb : b.mn <;> simp

/-- C13: `operator<` is transitive; two MN ids are ordered by pubkey, two non-MN ids by internal
id and then route, and an MN id and a non-MN id by internal id with the MN id counting
as `-1`. -/
theorem operator_lt_trans (a b c : ConnectionID) :
    (a.operator_lt b = true → b.operator_lt c = true → a.operator_lt c = true) ∧
    (a.mn = true → b.mn = true →
      (a.operator_lt b = true ↔ std_string_lt a.pk b.pk = true)) ∧
    (a.mn = false → b.mn = false →
      (a.operator_lt b = true ↔
        (a.id < b.id ∨ (a.id = b.id ∧ std_string_lt a.route b.route = true)))) ∧
    (a.mn = true → b.mn = false →
      ((a.operator_lt b = true ↔ ConnectionID.MN_ID < b.id) ∧
        (b.operator_lt a = true ↔ b.id < ConnectionID.MN_ID))) := by
  refine ⟨?_, ?_, ?_, ?_⟩
  · intro hab hbc
    rw [operator_lt_cases] at hab hbc ⊢
    simp only [mn_eq_true_iff, mn_eq_false_iff] at hab hbc ⊢
    rcases hab with ⟨ha, hb, hpk⟩ | ⟨hn, hlex⟩
    · rcases hbc with ⟨_, hc, hpk2⟩ | ⟨hn2, hlex2⟩
      · exact Or.inl ⟨ha, hc, std_string_lt_trans _ _ _ hpk hpk2⟩
      · right
        rcases hlex2 with hlt | ⟨hEq, _⟩
        · exact ⟨Or.inr (by omega), Or.inl (by omega)⟩
        · rcases hn2 with h | h <;> omega
    · rcases hbc with ⟨hb, hc, _⟩ | ⟨hn2, hlex2⟩
      · right
        rcases hlex with hlt | ⟨hEq, _⟩
        · exact ⟨Or.inl (by omega), Or.inl (by omega)⟩
        · rcases hn with h | h <;> omega
      · right
        rcases hlex with hlt | ⟨hEq, hr⟩
        · rcases hlex2 with hlt2 | ⟨hEq2, _⟩
          · refine ⟨?_, Or.inl (by omega)⟩
            by_cases hc : c.id = -1
            · exact Or.inl (by omega)
            · exact Or.inr hc
          · refine ⟨?_, Or.inl (by omega)⟩
            by_cases hc : c.id = -1
            · exact Or.inl (by omega)
            · exact Or.inr hc
        · rcases hlex2 with hlt2 | ⟨hEq2, hr2⟩
          · refine ⟨?_, Or.inl (by omega)⟩
            by_cases hc : c.id = -1
            · exact Or.inl (by omega)
            · exact Or.inr hc
          · refine ⟨?_, Or.inr ⟨hEq.trans hEq2, std_string_lt_trans _ _ _ hr hr2⟩⟩
            rcases hn with h | h
            · exact Or.inl h
            · exact Or.inr (by omega)
  · intro ha hb
    rw [operator_lt_cases]
    simp [ha, hb]
  · intro ha hb
    rw [operator_lt_cases]
    simp [ha, hb]
  · intro ha hb
    have hai := (mn_eq_true_iff a).mp ha
    have hbi := (mn_eq_false_iff b).mp hb
    rw [operator_lt_cases, operator_lt_cases]
    simp only [ha, hb, ConnectionID.MN_ID, hai]
    constructor
    · constructor
      · rintro (⟨_, h, _⟩ | ⟨_, h | ⟨h, _⟩⟩)
        · exact absurd h (by decide)
        · exact h
        · exact absurd h.symm hbi
      · intro h
        exact Or.inr ⟨Or.inr trivial, Or.inl h⟩
    · constructor
      · rintro (⟨h, _, _⟩ | ⟨_, h | ⟨h, _⟩⟩)
        · exact absurd h (by decide)
        · exact h
        · exact absurd h hbi
      · intro h
        exact Or.inr ⟨Or.inl trivial, Or.inl h⟩

/-- C13 at a chain that mixes the three kinds of pair: a non-MN id below `-1`, an MN id, and a
non-MN id above. -/
theorem operator_lt_trans_witness :
    ConnectionID.operator_lt ⟨-2, [9], [9]⟩ ⟨-1, [5], [7]⟩ = true ∧
    ConnectionID.operator_lt ⟨-1, [5], [7]⟩ ⟨3, [1], []⟩ = true ∧
    ConnectionID.operator_lt ⟨-2, [9], [9]⟩ ⟨3, [1], []⟩ = true :=
  ⟨by decide, by decide,
    (operator_lt_trans ⟨-2, [9], [9]⟩ ⟨-1, [5], [7]⟩ ⟨3, [1], []⟩).1 (by decide) (by decide)⟩

/-! ## The hash of a value that is already a hash -/

theorem le_bytes_value_lt (bs : Str) : le_bytes_value bs < 256 ^ bs.length := by
  induction bs with
  | nil => simp [le_bytes_value]
  | cons b bs ih =>
    have hb : b.val < 256 := b.isLt
    simp only [le_bytes_value, List.length_cons, pow_succ]
    omega

theorem le_bytes_value_inj (bs cs : Str) (hlen : bs.length = cs.length)
    (h : le_bytes_value bs = le_bytes_value cs) : bs = cs := by
  induction bs generalizing cs with
  | nil =>
    cases cs with
    | nil => rfl
    | cons c cs => simp at hlen
  | cons b bs ih =>
    cases cs with
    | nil => simp at hlen
    | cons c cs =>
      have hb : b.val < 256 := b.isLt
      have hc : c.val < 256 := c.isLt
      simp only [le_bytes_value] at h
      simp only [List.length_cons, Nat.add_right_cancel_iff] at hlen
      have hhead : b = c := Fin.ext (by omega)
      have htail : le_bytes_value bs = le_bytes_value cs := by omega
      rw [hhead, ih cs hlen htail]

/-- Two runs of bytes of the same length that `std::memcpy` turns into the same integer are the
same bytes. -/
theorem memcpy_value_inj (impl : StdImpl) (bs cs : Str) (hlen : bs.length = cs.length)
    (h : memcpy_value impl bs = memcpy_value impl cs) : bs = cs := by
  unfold memcpy_value at h
  cases hle : impl.little_endian
  · simp only [hle, Bool.false_eq_true, if_false] at h
    have hrev := le_bytes_value_inj bs.reverse cs.reverse (by simp [hlen]) h
    exact List.reverse_injective hrev
  · simp only [hle, if_true] at h
    exact le_bytes_value_inj bs cs hlen h

/-- The integer `std::memcpy` makes of `sizeof(size_t)` bytes is a `size_t` value. -/
theorem memcpy_value_lt (impl : StdImpl) (bs : Str) (hlen : bs.length = impl.sizeof_size_t) :
    memcpy_value impl bs < size_t_mod impl := by
  have hpow : size_t_mod impl = 256 ^ impl.sizeof_size_t := by
    unfold size_t_mod
    rw [pow_mul]
    norm_num
  rw [hpow]
  unfold memcpy_value
  split_ifs
  · simpa [hlen] using le_bytes_value_lt bs
  · simpa [hlen] using le_bytes_value_lt bs.reverse

/-- C14: for a string of at least `sizeof(size_t)` bytes `already_hashed` is the integer whose
object representation is the first `sizeof(size_t)` bytes, so two such strings hash equally
exactly when those bytes agree; for a shorter string it is `std::hash<std::string>`; the read
never runs past the end of the string; and the result is a `size_t` value. -/
theorem already_hashed_leading_bytes (impl : StdImpl) (s t : Str) :
    (impl.sizeof_size_t ≤ s.length →
      already_hashed impl s = memcpy_value impl (s.take impl.sizeof_size_t) ∧
      (s.take impl.sizeof_size_t).length = impl.sizeof_size_t) ∧
    (impl.sizeof_size_t ≤ s.length → impl.sizeof_size_t ≤ t.length →
      (already_hashed impl s = already_hashed impl t ↔
        s.take impl.sizeof_size_t = t.take impl.sizeof_size_t)) ∧
    (s.length < impl.sizeof_size_t → already_hashed impl s = impl.hash_string s) ∧
    already_hashed_checked impl s = some (already_hashed impl s) ∧
    already_hashed impl s < size_t_mod impl := by
  refine ⟨?_, ?_, ?_, ?_, ?_⟩
  · intro hs
    have hnot : ¬ s.length < impl.sizeof_size_t := not_lt.mpr hs
    exact ⟨by simp [already_hashed, hnot], by simp [hs]⟩
  · intro hs ht
    have hns : ¬ s.length < impl.sizeof_size_t := not_lt.mpr hs
    have hnt : ¬ t.length < impl.sizeof_size_t := not_lt.mpr ht
    simp only [already_hashed, hns, hnt, if_false]
    constructor
    · intro h
      exact memcpy_value_inj impl _ _ (by simp [hs, ht]) h
    · intro h
      rw [h]
  · intro hs
    simp [already_hashed, hs]
  · by_cases hs : s.length < impl.sizeof_size_t
    · simp [already_hashed_checked, already_hashed, hs]
    · have hle : impl.sizeof_size_t ≤ s.length := not_lt.mp hs
      simp [already_hashed_checked, already_hashed, memcpy_read, hs, hle]
  · by_cases hs : s.length < impl.sizeof_size_t
    · simp only [already_hashed, hs, if_true]
      exact impl.hash_string_lt s
    · have hle : impl.sizeof_size_t ≤ s.length := not_lt.mp hs
      simp only [already_hashed, hs, if_false]
      exact memcpy_value_lt impl _ (by simp [hle])

/-- C14 at two nine-byte strings that share their first eight bytes and differ in the ninth:
with an 8-byte `size_t` they hash equally. -/
theorem already_hashed_leading_bytes_witness :
    already_hashed StdImpl.sample64 [1, 2, 3, 4, 5, 6, 7, 8, 9] =
      already_hashed StdImpl.sample64 [1, 2, 3, 4, 5, 6, 7, 8, 0] ∧
    already_hashed StdImpl.sample64 [1, 2, 3, 4, 5, 6, 7, 8, 9] = 578437695752307201 :=
  ⟨((already_hashed_leading_bytes StdImpl.sample64 [1, 2, 3, 4, 5, 6, 7, 8, 9]
      [1, 2, 3, 4, 5, 6, 7, 8, 0]).2.1 (by decide) (by decide)).mpr (by decide), by decide⟩

/-! ## Equality is an equivalence -/

/-- C15: `operator==` is reflexive, symmetric and transitive over all ids, and `operator!=` is
its negation. -/
theorem operator_eq_equivalence :
    (∀ a : ConnectionID, a.operator_eq a = true) ∧
    (∀ a b : ConnectionID, a.operator_eq b = b.operator_eq a) ∧
    (∀ a b c : ConnectionID, a.operator_eq b = true → b.operator_eq c = true →
      a.operator_eq c = true) ∧
    (∀ a b : ConnectionID, a.operator_ne b = !(a.operator_eq b)) := by
  refine ⟨?_, ?_, ?_, fun _ _ => rfl⟩
  · intro a
    rw [operator_eq_cases]
    cases ha : a.mn
    · exact Or.inr ⟨rfl, rfl, rfl, rfl⟩
    · exact Or.inl ⟨rfl, rfl, rfl⟩
  · intro a b
    rw [Bool.eq_iff_iff, operator_eq_cases, operator_eq_cases]
    constructor
    · rintro (⟨h1, h2, h3⟩ | ⟨h1, h2, h3, h4⟩)
      · exact Or.inl ⟨h2, h1, h3.symm⟩
      · exact Or.inr ⟨h2, h1, h3.symm, h4.symm⟩
    · rintro (⟨h1, h2, h3⟩ | ⟨h1, h2, h3, h4⟩)
      · exact Or.inl ⟨h2, h1, h3.symm⟩
      · exact Or.inr ⟨h2, h1, h3.symm, h4.symm⟩
  · intro a b c hab hbc
    rw [operator_eq_cases] at hab hbc ⊢
    rcases hab with ⟨ha, hb, hpk⟩ | ⟨ha, hb, hid, hroute⟩
    · rcases hbc with ⟨_, hc, hpk2⟩ | ⟨hb2, _, _, _⟩
      · exact Or.inl ⟨ha, hc, hpk.trans hpk2⟩
      · rw [hb] at hb2
        exact absurd hb2 (by decide)
    · rcases hbc with ⟨hb2, _, _⟩ | ⟨_, hc, hid2, hroute2⟩
      · rw [hb] at hb2
        exact absurd hb2 (by decide)
      · exact Or.inr ⟨ha, hc, hid.trans hid2, hroute.trans hroute2⟩

/-- C15 at a chain of MN ids with one pubkey and three different routes. -/
theorem operator_eq_equivalence_witness :
    ConnectionID.operator_eq ⟨-1, [4], [1]⟩ ⟨-1, [4], [2]⟩ = true ∧
    ConnectionID.operator_eq ⟨-1, [4], [2]⟩ ⟨-1, [4], [3]⟩ = true ∧
    ConnectionID.operator_eq ⟨-1, [4], [1]⟩ ⟨-1, [4], [3]⟩ = true :=
  ⟨by decide, by decide,
    operator_eq_equivalence.2.2.1 ⟨-1, [4], [1]⟩ ⟨-1, [4], [2]⟩ ⟨-1, [4], [3]⟩
      (by decide) (by decide)⟩

/-- C16: an MN id and a non-MN id never compare equal, in either direction, also when their
pubkeys and routes coincide. -/
theorem mn_ne_non_mn (a b : ConnectionID) (ha : a.mn = true) (hb : b.mn = false) :
    a.operator_eq b = false ∧ b.operator_eq a = false ∧
    a.operator_ne b = true ∧ b.operator_ne a = true := by
  have hai := (mn_eq_true_iff a).mp ha
  have hbi := (mn_eq_false_iff b).mp hb
  have hne : a.id ≠ b.id := fun h => hbi (h ▸ hai)
  have h1 : a.operator_eq b = false := by
    simp [ConnectionID.operator_eq, ha, hb, hne]
  have h2 : b.operator_eq a = false := by
    simp [ConnectionID.operator_eq, ha, hb, hne.symm]
  exact ⟨h1, h2, by simp [ConnectionID.operator_ne, h1], by simp [ConnectionID.operator_ne, h2]⟩

/-- C16 at an MN id and a non-MN id with the same pubkey and the same route. -/
theorem mn_ne_non_mn_witness :
    ConnectionID.operator_eq ⟨-1, [6, 6], [2]⟩ ⟨7, [6, 6], [2]⟩ = false ∧
    ConnectionID.operator_eq ⟨7, [6, 6], [2]⟩ ⟨-1, [6, 6], [2]⟩ = false :=
  have h := mn_ne_non_mn ⟨-1, [6, 6], [2]⟩ ⟨7, [6, 6], [2]⟩ (by decide) (by decide)
  ⟨h.1, h.2.1⟩

/-! ## The hash of an MN id -/

/-- What the constructor from a pubkey string builds when it does not throw. -/
theorem of_string_ok (pk : Str) (c : ConnectionID)
    (hc : ConnectionID.of_string pk = Except.ok c) :
    pk.length = 32 ∧ c = ⟨-1, pk, []⟩ := by
  unfold ConnectionID.of_string at hc
  by_cases h : pk.length = 32
  · simp only [h, ne_eq, not_true_eq_false, if_false, Except.ok.injEq] at hc
    exact ⟨h, hc.symm⟩
  · simp [h] at hc

/-- C17: for an id built from a 32-byte pubkey, on an implementation whose `size_t` has at most
32 bytes, `std::hash<ConnectionID>` is `already_hashed` of the pubkey, which does not take the
`std::hash<std::string>` fallback: it is the integer made of the first `sizeof(size_t)` bytes of
the pubkey, the same for every implementation of the standard hashes, for every route, and for
every id built from a pubkey with the same leading bytes. -/
theorem hash_of_pubkey_id (impl : StdImpl) (pk : Str) (c : ConnectionID)
    (hw : impl.sizeof_size_t ≤ 32) (hc : ConnectionID.of_string pk = Except.ok c) :
    hash_ConnectionID impl c = already_hashed impl pk ∧
    ¬ pk.length < impl.sizeof_size_t ∧
    hash_ConnectionID impl c = memcpy_value impl (pk.take impl.sizeof_size_t) ∧
    (∀ impl2 : StdImpl, impl2.sizeof_size_t = impl.sizeof_size_t →
      impl2.little_endian = impl.little_endian →
      hash_ConnectionID impl2 c = hash_ConnectionID impl c) ∧
    (∀ route : Str, hash_ConnectionID impl ⟨c.id, c.pk, route⟩ = hash_ConnectionID impl c) ∧
    (∀ (pk2 : Str) (c2 : ConnectionID) (route2 : Str),
      ConnectionID.of_string pk2 = Except.ok c2 →
      pk2.take impl.sizeof_size_t = pk.take impl.sizeof_size_t →
      hash_ConnectionID impl ⟨c2.id, c2.pk, route2⟩ = hash_ConnectionID impl c) := by
  obtain ⟨hlen, hceq⟩ := of_string_ok pk c hc
  subst hceq
  have hnot : ¬ pk.length < impl.sizeof_size_t := by omega
  have hmn : ∀ (q r : Str), ConnectionID.mn ⟨-1, q, r⟩ = true := fun _ _ => rfl
  have hval : ∀ r : Str, hash_ConnectionID impl ⟨-1, pk, r⟩ =
      memcpy_value impl (pk.take impl.sizeof_size_t) := by
    intro r
    simp [hash_ConnectionID, hmn, already_hashed, hnot]
  refine ⟨?_, hnot, hval [], ?_, ?_, ?_⟩
  · simp [hash_ConnectionID, hmn]
  · intro impl2 hsz hend
    have hnot2 : ¬ pk.length < impl2.sizeof_size_t := by omega
    simp [hash_ConnectionID, hmn, already_hashed, hnot, hnot2, memcpy_value, hsz, hend]
  · intro route
    rw [hval route, hval []]
  · intro pk2 c2 route2 hc2 htake
    obtain ⟨hlen2, hceq2⟩ := of_string_ok pk2 c2 hc2
    subst hceq2
    have hnot2 : ¬ pk2.length < impl.sizeof_size_t := by omega
    rw [hval []]
    simp [hash_ConnectionID, hmn, already_hashed, hnot2, htake]

/-- C17 at two 32-byte pubkeys that share their first 31 bytes: the two MN ids are unequal and,
with an 8-byte `size_t`, hash equally. -/
theorem hash_of_pubkey_id_witness :
    ConnectionID.operator_eq ⟨-1, List.replicate 31 7 ++ [8], []⟩
      ⟨-1, List.replicate 32 7, []⟩ = false ∧
    hash_ConnectionID StdImpl.sample64 ⟨-1, List.replicate 31 7 ++ [8], [5]⟩ =
      hash_ConnectionID StdImpl.sample64 ⟨-1, List.replicate 32 7, []⟩ :=
  ⟨by decide,
    (hash_of_pubkey_id StdImpl.sample64 (List.replicate 32 7) ⟨-1, List.replicate 32 7, []⟩
      (by decide) (by rfl)).2.2.2.2.2 (List.replicate 31 7 ++ [8])
      ⟨-1, List.replicate 31 7 ++ [8], []⟩ [5] (by rfl) (by decide)⟩

end bmq
